import Mathlib

/-!
Verification of the reputation scoring and credential trust engine of the
moca_moca repository ("Proof of Dev").

The TypeScript sources are shallowly embedded: JavaScript numbers become
rationals (`ℚ`), `Math.round` becomes `jround` (floor of `x + 1/2`, which is
how JS rounds, half toward +∞), `Math.min` becomes `min`, arrays become
lists, and the insertion-ordered `Map` used by `aggregateEndorsements`
becomes an association list that appends new keys at the end.

Embedded functions (from `airkit.ts`, class `ReputationEngine`, and
`github-analyzer.ts`, class `GitHubAnalyzer`):
  * `calculateTrustScore`
  * `calculateSkillScore`
  * `aggregateEndorsements`
  * `buildSkillGraph`
  * `calculateReputationScore`
-/

/-- JavaScript `Math.round`: rounds half toward positive infinity. -/
def jround (q : ℚ) : ℤ := ⌊q + 1/2⌋

/-- JavaScript `x || 0` on a number: `0` (and only `0`) is falsy, every other
number is returned unchanged.  Used by `calculateReputationScore`, whose
argument fields are `Partial` in TS; on a fully-populated snapshot this only
replaces `0` by `0`. -/
def jsOrZero (q : ℚ) : ℚ := if q = 0 then 0 else q

/-- The `evidence` object of a SkillCredential's `credentialSubject`. -/
structure Evidence where
  repositories : List String
  commits : ℚ
  linesOfCode : ℚ
  projects : List String
  deriving DecidableEq, Repr

/-- The `credentialSubject` of a SkillCredential (fields the engine reads). -/
structure SkillSubject where
  skillName : String
  proficiencyLevel : String
  evidence : Evidence
  verifiedAt : String
  deriving DecidableEq, Repr

/-- The `credentialSubject` of an EndorsementCredential (fields the engine
reads). -/
structure EndorsementSubject where
  endorsedSkill : String
  endorserType : String
  rating : ℚ
  deriving DecidableEq, Repr

/-- A credential as dispatched by the engine: the TS code inspects
`credential.type.find(t => t !== "VerifiableCredential")` and switches on the
four recognised type strings, falling through (`other`) for anything else.
Each constructor carries the `credentialSubject` fields that the engine
reads for that credential type. -/
inductive VerifiableCredential where
  | devPortfolio (reputationScore : ℚ)
  | skill (subject : SkillSubject)
  | project (commits : ℚ)
  | endorsement (subject : EndorsementSubject)
  | other
  deriving DecidableEq, Repr

/-- An `EndorsementNode` (aggregate view of endorsements for one skill). -/
structure EndorsementNode where
  skillName : String
  endorserType : String
  rating : ℚ
  count : ℕ
  deriving DecidableEq, Repr

/-- A `SkillNode` of the skill graph. -/
structure SkillNode where
  skillName : String
  proficiencyLevel : String
  evidence : Evidence
  verifiedAt : String
  deriving DecidableEq, Repr

/-- A `SkillConnection` edge of the skill graph. -/
structure SkillConnection where
  «from» : String
  «to» : String
  relationship : String
  strength : ℚ
  deriving DecidableEq, Repr

/-- The `SkillGraph` record returned by `buildSkillGraph`. -/
structure SkillGraph where
  skills : List SkillNode
  connections : List SkillConnection
  endorsements : List EndorsementNode
  deriving DecidableEq, Repr

/-- The base score assigned by `calculateSkillScore`'s `switch` on
`proficiencyLevel`; the TS switch has no default, leaving `score = 0`. -/
def proficiencyBase (level : String) : ℚ :=
  match level with
  | "Beginner" => 25
  | "Intermediate" => 50
  | "Advanced" => 75
  | "Expert" => 100
  | _ => 0

/-- `ReputationEngine.calculateSkillScore`. -/
def calculateSkillScore (skillCredential : SkillSubject) : ℤ :=
  let evidence := skillCredential.evidence
  let score : ℚ := proficiencyBase skillCredential.proficiencyLevel
  let commitsMultiplier := min (evidence.commits / 100) 1
  let locMultiplier := min (evidence.linesOfCode / 10000) 1
  let projectsMultiplier := min ((evidence.projects.length : ℚ) / 5) 1
  jround (min (score * (0.4 + 0.2 * commitsMultiplier + 0.2 * locMultiplier
      + 0.2 * projectsMultiplier)) 100)

/-- One iteration of the `forEach` in `calculateTrustScore`: the accumulator
is the pair `(score, weight)`. -/
def trustStep (acc : ℚ × ℚ) (credential : VerifiableCredential) : ℚ × ℚ :=
  match credential with
  | .devPortfolio reputationScore =>
      (acc.1 + reputationScore * 0.4, acc.2 + 0.4)
  | .skill subject =>
      (acc.1 + (calculateSkillScore subject : ℚ) * 0.3, acc.2 + 0.3)
  | .project commits =>
      (acc.1 + min (commits * 0.1) 100 * 0.2, acc.2 + 0.2)
  | .endorsement subject =>
      (acc.1 + subject.rating * 20 * 0.1, acc.2 + 0.1)
  | .other => acc

/-- `ReputationEngine.calculateTrustScore`. -/
def calculateTrustScore (credentials : List VerifiableCredential) : ℤ :=
  let sw := credentials.foldl trustStep (0, 0)
  if sw.2 > 0 then jround (sw.1 / sw.2) else 0

/-- One iteration of the `forEach` in `aggregateEndorsements`.  The TS code
keys an insertion-ordered `Map` by skill name; here the map is an
association list: an existing entry for the skill is updated in place
(incremental mean, count bump — `endorserType` is NOT touched), a new skill
is appended at the end. -/
def insertEndorsement (acc : List EndorsementNode) (endorsement : EndorsementSubject) :
    List EndorsementNode :=
  if acc.any (fun node => node.skillName == endorsement.endorsedSkill) then
    acc.map (fun node =>
      if node.skillName == endorsement.endorsedSkill then
        { node with
          rating := (node.rating * node.count + endorsement.rating) / ((node.count : ℚ) + 1),
          count := node.count + 1 }
      else node)
  else
    acc ++ [{ skillName := endorsement.endorsedSkill,
              endorserType := endorsement.endorserType,
              rating := endorsement.rating,
              count := 1 }]

/-- `ReputationEngine.aggregateEndorsements`. -/
def aggregateEndorsements (endorsements : List EndorsementSubject) : List EndorsementNode :=
  endorsements.foldl insertEndorsement []

/-- One iteration of the first `forEach` in `buildSkillGraph`: a
SkillCredential pushes a `SkillNode`, an EndorsementCredential pushes an
`EndorsementNode` with `count := 1`, anything else is skipped. -/
def extractStep (acc : List SkillNode × List EndorsementNode)
    (credential : VerifiableCredential) : List SkillNode × List EndorsementNode :=
  match credential with
  | .skill s =>
      (acc.1 ++ [{ skillName := s.skillName, proficiencyLevel := s.proficiencyLevel,
                   evidence := s.evidence, verifiedAt := s.verifiedAt }], acc.2)
  | .endorsement e =>
      (acc.1, acc.2 ++ [{ skillName := e.endorsedSkill, endorserType := e.endorserType,
                          rating := e.rating, count := 1 }])
  | _ => acc

/-- `skill1.evidence.projects.filter(p => skill2.evidence.projects.includes(p)).length`. -/
def sharedProjects (skill1 skill2 : SkillNode) : ℕ :=
  (skill1.evidence.projects.filter
    (fun project => skill2.evidence.projects.contains project)).length

/-- The edge the inner loop of `buildSkillGraph` pushes for an ordered pair
of skill nodes, when their project lists overlap. -/
def connectTo (skill1 skill2 : SkillNode) : Option SkillConnection :=
  if 0 < sharedProjects skill1 skill2 then
    some { «from» := skill1.skillName, «to» := skill2.skillName,
           relationship := "related",
           strength := min ((sharedProjects skill1 skill2 : ℚ) / 3) 1 }
  else none

/-- The double loop `for i; for j = i+1 …` of `buildSkillGraph`, in its
traversal order. -/
def pairConnections : List SkillNode → List SkillConnection
  | [] => []
  | skill1 :: rest => rest.filterMap (connectTo skill1) ++ pairConnections rest

/-- `ReputationEngine.buildSkillGraph`. -/
def buildSkillGraph (credentials : List VerifiableCredential) : SkillGraph :=
  let se := credentials.foldl extractStep ([], [])
  { skills := se.1, connections := pairConnections se.1, endorsements := se.2 }

/-- The activity metrics read by `GitHubAnalyzer.calculateReputationScore`
(its argument is `Partial<DeveloperMetrics>`; the fields it reads). -/
structure ActivitySnapshot where
  followers : ℚ
  totalStars : ℚ
  totalRepositories : ℚ
  accountAge : ℚ
  recentActivity : ℚ
  totalForks : ℚ
  deriving DecidableEq, Repr

/-- `GitHubAnalyzer.calculateReputationScore`.  Each field goes through the
`|| 0` guard before its capped contribution is added. -/
def calculateReputationScore (metrics : ActivitySnapshot) : ℤ :=
  jround (min (jsOrZero metrics.followers) 100
    + min (jsOrZero metrics.totalStars * 0.1) 200
    + min (jsOrZero metrics.totalRepositories * 2) 150
    + min (jsOrZero metrics.accountAge / 365 * 10) 100
    + min (jsOrZero metrics.recentActivity * 2) 100
    + min (jsOrZero metrics.totalForks * 0.5) 50)

/-! ## Spec-side restatements

The following definitions follow the specification's wording; the theorems
below compare them with the embedded code. -/

/-- Spec side (§4.2.4): the score contribution of one credential. -/
def credScore (credential : VerifiableCredential) : ℚ :=
  match credential with
  | .devPortfolio reputationScore => reputationScore * 0.4
  | .skill subject => (calculateSkillScore subject : ℚ) * 0.3
  | .project commits => min (commits * 0.1) 100 * 0.2
  | .endorsement subject => subject.rating * 20 * 0.1
  | .other => 0

/-- Spec side (§4.2.4): the weight contribution of one credential. -/
def credWeight (credential : VerifiableCredential) : ℚ :=
  match credential with
  | .devPortfolio _ => 0.4
  | .skill _ => 0.3
  | .project _ => 0.2
  | .endorsement _ => 0.1
  | .other => 0

/-- Spec side (§4.2.4): the trust score as a single weighted average of the
per-credential sums, `weight > 0 ? round(score / weight) : 0`. -/
def specTrustScore (credentials : List VerifiableCredential) : ℤ :=
  let score := (credentials.map credScore).sum
  let weight := (credentials.map credWeight).sum
  if weight > 0 then jround (score / weight) else 0

/-- Spec side (§4.1): the six independently capped contributions, summed,
with the raw fields used directly. -/
def specReputationTotal (m : ActivitySnapshot) : ℚ :=
  min m.followers 100 + min (m.totalStars * 0.1) 200
    + min (m.totalRepositories * 2) 150 + min (m.accountAge / 365 * 10) 100
    + min (m.recentActivity * 2) 100 + min (m.totalForks * 0.5) 50

/-- The EndorsementCredential subjects present in a credential list, in
order. -/
def endorsementSubjects (credentials : List VerifiableCredential) :
    List EndorsementSubject :=
  credentials.filterMap (fun credential =>
    match credential with
    | .endorsement e => some e
    | _ => none)

/-- The `EndorsementNode` that `buildSkillGraph` pushes for one
EndorsementCredential (count fixed at 1), `none` for other kinds. -/
def endorsementNodeOf (credential : VerifiableCredential) : Option EndorsementNode :=
  match credential with
  | .endorsement e =>
      some { skillName := e.endorsedSkill, endorserType := e.endorserType,
             rating := e.rating, count := 1 }
  | _ => none

/-- The `SkillNode` that `buildSkillGraph` pushes for one SkillCredential,
`none` for other kinds. -/
def skillNodeOf (credential : VerifiableCredential) : Option SkillNode :=
  match credential with
  | .skill s =>
      some { skillName := s.skillName, proficiencyLevel := s.proficiencyLevel,
             evidence := s.evidence, verifiedAt := s.verifiedAt }
  | _ => none

/-- The distinct elements of a list in order of first appearance. -/
def firstAppearances (l : List String) : List String :=
  l.foldl (fun acc x => if x ∈ acc then acc else acc ++ [x]) []

/-- Spec side (§4.2.3): the connection contributed by the pair of positions
`(i, j)` of the skills list, read off by index. -/
def indexConnect (skills : List SkillNode) (i j : ℕ) : Option SkillConnection :=
  match skills[i]?, skills[j]? with
  | some s, some t => connectTo s t
  | _, _ => none

/-- Spec side (§4.2.3): one edge for every pair of positions `i < j` of the
skills list whose project evidence overlaps, enumerated by index. -/
def specConnections (skills : List SkillNode) : List SkillConnection :=
  (List.range skills.length).flatMap (fun i =>
    ((List.range skills.length).filter (fun j => i < j)).filterMap
      (fun j => indexConnect skills i j))

/-! ## Helper lemmas -/

theorem foldl_trustStep (credentials : List VerifiableCredential) :
    ∀ a b : ℚ, credentials.foldl trustStep (a, b) =
      (a + (credentials.map credScore).sum, b + (credentials.map credWeight).sum) := by
  induction credentials with
  | nil => intro a b; simp
  | cons c cs ih =>
      intro a b
      cases c <;>
        simp only [List.foldl_cons, List.map_cons, List.sum_cons, trustStep, credScore,
          credWeight, ih, Prod.mk.injEq] <;>
        constructor <;> ring

theorem calculateTrustScore_eq_spec (credentials : List VerifiableCredential) :
    calculateTrustScore credentials = specTrustScore credentials := by
  simp only [calculateTrustScore, specTrustScore, foldl_trustStep, zero_add]

/-- C1: the single pass of `calculateTrustScore` accumulates exactly the
per-credential score and weight contributions of the spec, and returns
`round(score/weight)` when the weight is positive and `0` otherwise;
the empty list scores `0`. -/
theorem trustScore_is_weighted_average :
    (∀ credentials : List VerifiableCredential,
        calculateTrustScore credentials = specTrustScore credentials) ∧
      calculateTrustScore [] = 0 := by
  refine ⟨calculateTrustScore_eq_spec, ?_⟩
  norm_num [calculateTrustScore]

/-- C9: the trust score is invariant under permutation of the credential
list. -/
theorem trustScore_perm_invariant (l₁ l₂ : List VerifiableCredential)
    (h : l₁.Perm l₂) : calculateTrustScore l₁ = calculateTrustScore l₂ := by
  rw [calculateTrustScore_eq_spec, calculateTrustScore_eq_spec]
  simp only [specTrustScore, (h.map credScore).sum_eq, (h.map credWeight).sum_eq]

/-- Closed instance of C9: swapping a two-element credential list leaves the
trust score unchanged. -/
theorem trustScore_perm_invariant_witness :
    ([VerifiableCredential.devPortfolio 80,
        VerifiableCredential.endorsement ⟨"React", "Peer", 5⟩] : List VerifiableCredential).Perm
        [VerifiableCredential.endorsement ⟨"React", "Peer", 5⟩,
          VerifiableCredential.devPortfolio 80] ∧
      calculateTrustScore
          [VerifiableCredential.devPortfolio 80,
            VerifiableCredential.endorsement ⟨"React", "Peer", 5⟩] =
        calculateTrustScore
          [VerifiableCredential.endorsement ⟨"React", "Peer", 5⟩,
            VerifiableCredential.devPortfolio 80] :=
  ⟨List.Perm.swap _ _ _, trustScore_perm_invariant _ _ (List.Perm.swap _ _ _)⟩

theorem jsOrZero_eq (q : ℚ) : jsOrZero q = q := by
  unfold jsOrZero
  split <;> simp_all

theorem calculateReputationScore_eq (m : ActivitySnapshot) :
    calculateReputationScore m = jround (specReputationTotal m) := by
  simp only [calculateReputationScore, specReputationTotal, jsOrZero_eq]

/-- C2: the reputation score is the round-half-up of the sum of the six
independently capped contributions; it never exceeds 700; the all-zero
snapshot scores 0 and the saturating snapshot scores exactly 700. -/
theorem reputationScore_matches_formula :
    (∀ m : ActivitySnapshot,
        calculateReputationScore m = jround (specReputationTotal m)) ∧
      (∀ m : ActivitySnapshot, calculateReputationScore m ≤ 700) ∧
      calculateReputationScore ⟨0, 0, 0, 0, 0, 0⟩ = 0 ∧
      calculateReputationScore ⟨1000, 1000000, 1000, 36500, 1000, 1000⟩ = 700 := by
  refine ⟨calculateReputationScore_eq, fun m => ?_, ?_, ?_⟩
  · rw [calculateReputationScore_eq]
    have h1 := min_le_right m.followers (100 : ℚ)
    have h2 := min_le_right (m.totalStars * 0.1) (200 : ℚ)
    have h3 := min_le_right (m.totalRepositories * 2) (150 : ℚ)
    have h4 := min_le_right (m.accountAge / 365 * 10) (100 : ℚ)
    have h5 := min_le_right (m.recentActivity * 2) (100 : ℚ)
    have h6 := min_le_right (m.totalForks * 0.5) (50 : ℚ)
    have htot : specReputationTotal m + 1 / 2 < ((701 : ℤ) : ℚ) := by
      unfold specReputationTotal
      push_cast
      linarith
    have := Int.floor_lt.mpr htot
    unfold jround
    omega
  · norm_num [calculateReputationScore, jsOrZero, jround]
  · norm_num [calculateReputationScore, jsOrZero, jround]

/-- Refutes C3 as stated: a snapshot whose only nonzero field is
`followers = -50` scores `-50`, not `0` — negative fields are not zeroed. -/
theorem negative_followers_not_zeroed :
    calculateReputationScore ⟨-50, 0, 0, 0, 0, 0⟩ = -50 ∧
      calculateReputationScore ⟨-50, 0, 0, 0, 0, 0⟩ ≠ 0 := by
  norm_num [calculateReputationScore, jsOrZero, jround]

/-- C3 amended: the `|| 0` guard replaces only an exact `0` (or a missing
field), so a negative field passes through `min` unchanged and contributes
its own negative amount: a snapshot with `followers = f < 0` and all other
fields `0` scores `round(f)`; at `f = -50` that is `-50`. -/
theorem negative_followers_pass_through :
    (∀ f : ℚ, f < 0 →
        calculateReputationScore ⟨f, 0, 0, 0, 0, 0⟩ = jround f) ∧
      calculateReputationScore ⟨-50, 0, 0, 0, 0, 0⟩ = -50 := by
  constructor
  · intro f hf
    have hne : f ≠ 0 := ne_of_lt hf
    have hmin : min f 100 = f := min_eq_left (by linarith)
    norm_num [calculateReputationScore, jsOrZero, hne, hmin, jround]
  · norm_num [calculateReputationScore, jsOrZero, jround]

theorem jround_mono {x y : ℚ} (h : x ≤ y) : jround x ≤ jround y :=
  Int.floor_le_floor (by linarith)

theorem jround_le_int (x : ℚ) (b : ℤ) (h : x ≤ b) : jround x ≤ b := by
  unfold jround
  have hlt := Int.floor_lt.mpr (show x + 1 / 2 < ((b + 1 : ℤ) : ℚ) by push_cast; linarith)
  omega

theorem proficiencyBase_cases (level : String) :
    proficiencyBase level = 0 ∨ proficiencyBase level = 25 ∨ proficiencyBase level = 50 ∨
      proficiencyBase level = 75 ∨ proficiencyBase level = 100 := by
  unfold proficiencyBase
  split <;> simp

theorem proficiencyBase_nonneg (level : String) : 0 ≤ proficiencyBase level := by
  rcases proficiencyBase_cases level with h | h | h | h | h <;> rw [h] <;> norm_num

theorem proficiencyBase_le_100 (level : String) : proficiencyBase level ≤ 100 := by
  rcases proficiencyBase_cases level with h | h | h | h | h <;> rw [h] <;> norm_num

theorem calculateSkillScore_unfold (s : SkillSubject) :
    calculateSkillScore s =
      jround (min (proficiencyBase s.proficiencyLevel *
        (0.4 + 0.2 * min (s.evidence.commits / 100) 1
          + 0.2 * min (s.evidence.linesOfCode / 10000) 1
          + 0.2 * min ((s.evidence.projects.length : ℚ) / 5) 1)) 100) := rfl

theorem calculateSkillScore_bounds (s : SkillSubject)
    (hc : 0 ≤ s.evidence.commits) (hl : 0 ≤ s.evidence.linesOfCode) :
    ⌊proficiencyBase s.proficiencyLevel * 0.4⌋ ≤ calculateSkillScore s ∧
      (calculateSkillScore s : ℚ) ≤ proficiencyBase s.proficiencyLevel := by
  rw [calculateSkillScore_unfold]
  set b := proficiencyBase s.proficiencyLevel with hbdef
  have hb0 : 0 ≤ b := proficiencyBase_nonneg _
  have hb100 : b ≤ 100 := proficiencyBase_le_100 _
  set cm := min (s.evidence.commits / 100) 1 with hcmdef
  set lm := min (s.evidence.linesOfCode / 10000) 1 with hlmdef
  set pm := min ((s.evidence.projects.length : ℚ) / 5) 1 with hpmdef
  have hcm0 : 0 ≤ cm := le_min (by positivity) (by norm_num)
  have hcm1 : cm ≤ 1 := min_le_right _ _
  have hlm0 : 0 ≤ lm := le_min (by positivity) (by norm_num)
  have hlm1 : lm ≤ 1 := min_le_right _ _
  have hpm0 : 0 ≤ pm := le_min (by positivity) (by norm_num)
  have hpm1 : pm ≤ 1 := min_le_right _ _
  have hmul_hi : b * (0.4 + 0.2 * cm + 0.2 * lm + 0.2 * pm) ≤ b := by nlinarith
  have hmul_lo : b * 0.4 ≤ b * (0.4 + 0.2 * cm + 0.2 * lm + 0.2 * pm) := by nlinarith
  have hmin : min (b * (0.4 + 0.2 * cm + 0.2 * lm + 0.2 * pm)) 100
      = b * (0.4 + 0.2 * cm + 0.2 * lm + 0.2 * pm) :=
    min_eq_left (le_trans hmul_hi hb100)
  rw [hmin]
  constructor
  · exact Int.floor_le_floor (by linarith)
  · rcases proficiencyBase_cases s.proficiencyLevel with h | h | h | h | h <;>
      rw [← hbdef] at h <;> rw [h] <;> rw [h] at hmul_hi
    · exact_mod_cast jround_le_int _ 0 (by exact_mod_cast hmul_hi)
    · exact_mod_cast jround_le_int _ 25 (by exact_mod_cast hmul_hi)
    · exact_mod_cast jround_le_int _ 50 (by exact_mod_cast hmul_hi)
    · exact_mod_cast jround_le_int _ 75 (by exact_mod_cast hmul_hi)
    · exact_mod_cast jround_le_int _ 100 (by exact_mod_cast hmul_hi)

theorem calculateSkillScore_mono (s : SkillSubject) (e' : Evidence)
    (hc : s.evidence.commits ≤ e'.commits)
    (hl : s.evidence.linesOfCode ≤ e'.linesOfCode)
    (hp : s.evidence.projects.length ≤ e'.projects.length) :
    calculateSkillScore s ≤ calculateSkillScore { s with evidence := e' } := by
  rw [calculateSkillScore_unfold, calculateSkillScore_unfold]
  apply jround_mono
  apply min_le_min _ le_rfl
  apply mul_le_mul_of_nonneg_left _ (proficiencyBase_nonneg _)
  have h1 : min (s.evidence.commits / 100) 1 ≤ min (e'.commits / 100) 1 :=
    min_le_min (by linarith) le_rfl
  have h2 : min (s.evidence.linesOfCode / 10000) 1 ≤ min (e'.linesOfCode / 10000) 1 :=
    min_le_min (by linarith) le_rfl
  have h3 : min ((s.evidence.projects.length : ℚ) / 5) 1
      ≤ min ((e'.projects.length : ℚ) / 5) 1 := by
    have : (s.evidence.projects.length : ℚ) ≤ (e'.projects.length : ℚ) := by
      exact_mod_cast hp
    exact min_le_min (by linarith) le_rfl
  simp only []
  linarith

/-- C7: with non-negative evidence, the skill score lies in
`[floor(base * 0.4), base]` for the level's base value, is monotonically
non-decreasing in each evidence field, and Expert with full evidence
(100 commits, 10000 lines, 5 projects) scores exactly 100. -/
theorem skillScore_bounds_and_monotone :
    (∀ s : SkillSubject, 0 ≤ s.evidence.commits → 0 ≤ s.evidence.linesOfCode →
        ⌊proficiencyBase s.proficiencyLevel * 0.4⌋ ≤ calculateSkillScore s ∧
          (calculateSkillScore s : ℚ) ≤ proficiencyBase s.proficiencyLevel) ∧
      (∀ (s : SkillSubject) (c : ℚ), s.evidence.commits ≤ c →
        calculateSkillScore s ≤ calculateSkillScore
          { s with evidence := { s.evidence with commits := c } }) ∧
      (∀ (s : SkillSubject) (l : ℚ), s.evidence.linesOfCode ≤ l →
        calculateSkillScore s ≤ calculateSkillScore
          { s with evidence := { s.evidence with linesOfCode := l } }) ∧
      (∀ (s : SkillSubject) (ps : List String), s.evidence.projects.length ≤ ps.length →
        calculateSkillScore s ≤ calculateSkillScore
          { s with evidence := { s.evidence with projects := ps } }) ∧
      calculateSkillScore
        ⟨"TypeScript", "Expert", ⟨[], 100, 10000, ["a", "b", "c", "d", "e"]⟩, ""⟩ = 100 := by
  refine ⟨fun s hc hl => calculateSkillScore_bounds s hc hl,
    fun s c h => calculateSkillScore_mono s _ h le_rfl le_rfl,
    fun s l h => calculateSkillScore_mono s _ le_rfl h le_rfl,
    fun s ps h => calculateSkillScore_mono s _ le_rfl le_rfl h,
    ?_⟩
  norm_num [calculateSkillScore, proficiencyBase, jround]

theorem proficiencyBase_invalid (level : String)
    (h : level ∉ (["Beginner", "Intermediate", "Advanced", "Expert"] : List String)) :
    proficiencyBase level = 0 := by
  unfold proficiencyBase
  split <;> simp_all

/-- C10: a `proficiencyLevel` outside the four enumerated values falls
through the `switch`, leaving the base score 0, and the evidence multiplier
cannot raise it: the function returns 0 (no clamping to a valid level). -/
theorem invalid_level_scores_zero :
    (∀ s : SkillSubject,
        s.proficiencyLevel ∉ (["Beginner", "Intermediate", "Advanced", "Expert"] : List String) →
        calculateSkillScore s = 0) ∧
      calculateSkillScore
        ⟨"X", "Guru", ⟨[], 1000, 100000, ["a", "b", "c", "d", "e", "f"]⟩, ""⟩ = 0 := by
  constructor
  · intro s h
    rw [calculateSkillScore_unfold, proficiencyBase_invalid _ h]
    norm_num [jround]
  · rw [calculateSkillScore_unfold, proficiencyBase_invalid _ (by decide)]
    norm_num [jround]

theorem foldl_extractStep (credentials : List VerifiableCredential) :
    ∀ a b, credentials.foldl extractStep (a, b) =
      (a ++ credentials.filterMap skillNodeOf,
        b ++ credentials.filterMap endorsementNodeOf) := by
  induction credentials with
  | nil => intro a b; simp
  | cons c cs ih =>
      intro a b
      cases c <;> simp [extractStep, skillNodeOf, endorsementNodeOf, ih]

theorem buildSkillGraph_fields (credentials : List VerifiableCredential) :
    buildSkillGraph credentials =
      { skills := credentials.filterMap skillNodeOf,
        connections := pairConnections (credentials.filterMap skillNodeOf),
        endorsements := credentials.filterMap endorsementNodeOf } := by
  simp [buildSkillGraph, foldl_extractStep]

/-- Refutes C5 as stated: with two endorsements of the same skill,
`buildSkillGraph` records two separate count-1 nodes while
`aggregateEndorsements` folds them into one aggregate, so the `endorsements`
field is not the aggregation of the endorsement credentials present. -/
theorem graph_endorsements_not_aggregated :
    (buildSkillGraph
        [.endorsement ⟨"React", "Peer", 4⟩,
          .endorsement ⟨"React", "Mentor", 5⟩]).endorsements ≠
      aggregateEndorsements
        (endorsementSubjects
          [.endorsement ⟨"React", "Peer", 4⟩,
            .endorsement ⟨"React", "Mentor", 5⟩]) := by
  have hL : (buildSkillGraph
      [.endorsement ⟨"React", "Peer", 4⟩,
        .endorsement ⟨"React", "Mentor", 5⟩]).endorsements.length = 2 := by
    rw [buildSkillGraph_fields]
    simp [endorsementNodeOf]
  have hR : (aggregateEndorsements
      (endorsementSubjects
        [.endorsement ⟨"React", "Peer", 4⟩,
          .endorsement ⟨"React", "Mentor", 5⟩])).length = 1 := by
    simp [endorsementSubjects, aggregateEndorsements, insertEndorsement]
  intro h
  rw [h, hR] at hL
  exact absurd hL (by norm_num)

/-- C5 amended: the `endorsements` field of `buildSkillGraph` holds one
`EndorsementNode` per EndorsementCredential of the input, in input order,
each with `count = 1` — the per-skill aggregation of
`aggregateEndorsements` is not applied. -/
theorem graph_endorsements_per_credential :
    (∀ credentials : List VerifiableCredential,
        (buildSkillGraph credentials).endorsements =
          credentials.filterMap endorsementNodeOf) ∧
      (buildSkillGraph
          [.endorsement ⟨"React", "Peer", 4⟩,
            .endorsement ⟨"React", "Mentor", 5⟩]).endorsements =
        [⟨"React", "Peer", 4, 1⟩, ⟨"React", "Mentor", 5, 1⟩] := by
  constructor
  · intro credentials
    rw [buildSkillGraph_fields]
  · rw [buildSkillGraph_fields]
    simp [endorsementNodeOf]

/-- Invariant of the `aggregateEndorsements` fold: `acc` is the map state
after processing exactly the endorsements `done`.  Each aggregate's count is
the number of matching endorsements so far, its rating times its count is
the sum of their ratings, and its `endorserType` is the type of the first
matching endorsement. -/
def AggInv (acc : List EndorsementNode) (done : List EndorsementSubject) : Prop :=
  acc.map (fun node => node.skillName)
      = firstAppearances (done.map (fun e => e.endorsedSkill)) ∧
    ∀ node ∈ acc,
      0 < node.count ∧
      node.count = (done.filter (fun e => e.endorsedSkill == node.skillName)).length ∧
      node.rating * node.count =
        ((done.filter (fun e => e.endorsedSkill == node.skillName)).map
          (fun e => e.rating)).sum ∧
      ∃ e0, done.find? (fun e => e.endorsedSkill == node.skillName) = some e0 ∧
        node.endorserType = e0.endorserType

theorem mem_foldl_firstApp (l : List String) :
    ∀ (acc : List String) (x : String),
      x ∈ l.foldl (fun acc y => if y ∈ acc then acc else acc ++ [y]) acc ↔
        x ∈ acc ∨ x ∈ l := by
  induction l with
  | nil => intro acc x; simp
  | cons y l ih =>
      intro acc x
      simp only [List.foldl_cons]
      by_cases hy : y ∈ acc
      · rw [if_pos hy, ih]
        simp only [List.mem_cons]
        constructor
        · rintro (h | h)
          · exact Or.inl h
          · exact Or.inr (Or.inr h)
        · rintro (h | h | h)
          · exact Or.inl h
          · rw [h]; exact Or.inl hy
          · exact Or.inr h
      · rw [if_neg hy, ih]
        simp only [List.mem_append, List.mem_singleton, List.mem_cons]
        tauto

theorem mem_firstAppearances (l : List String) (x : String) :
    x ∈ firstAppearances l ↔ x ∈ l := by
  unfold firstAppearances
  rw [mem_foldl_firstApp]
  simp

theorem firstAppearances_append_singleton (l : List String) (x : String) :
    firstAppearances (l ++ [x]) =
      if x ∈ firstAppearances l then firstAppearances l
      else firstAppearances l ++ [x] := by
  unfold firstAppearances
  rw [List.foldl_append]
  rfl

theorem insertEndorsement_pos (acc : List EndorsementNode) (e : EndorsementSubject)
    (h : acc.any (fun node => node.skillName == e.endorsedSkill) = true) :
    insertEndorsement acc e = acc.map (fun node =>
      if node.skillName == e.endorsedSkill then
        { node with
          rating := (node.rating * node.count + e.rating) / ((node.count : ℚ) + 1),
          count := node.count + 1 }
      else node) := by
  unfold insertEndorsement
  rw [if_pos h]

theorem insertEndorsement_neg (acc : List EndorsementNode) (e : EndorsementSubject)
    (h : ¬ acc.any (fun node => node.skillName == e.endorsedSkill) = true) :
    insertEndorsement acc e =
      acc ++ [{ skillName := e.endorsedSkill, endorserType := e.endorserType,
                rating := e.rating, count := 1 }] := by
  unfold insertEndorsement
  rw [if_neg h]

theorem aggInv_step (acc : List EndorsementNode) (done : List EndorsementSubject)
    (e : EndorsementSubject) (h : AggInv acc done) :
    AggInv (insertEndorsement acc e) (done ++ [e]) := by
  obtain ⟨hnames, hnode⟩ := h
  by_cases hmem : acc.any (fun node => node.skillName == e.endorsedSkill) = true
  · rw [insertEndorsement_pos acc e hmem]
    have hkey : e.endorsedSkill ∈ acc.map (fun node => node.skillName) := by
      rcases List.any_eq_true.mp hmem with ⟨n, hn, hb⟩
      exact List.mem_map.mpr ⟨n, hn, beq_iff_eq.mp hb⟩
    constructor
    · rw [List.map_map]
      have hfun : ∀ n ∈ acc, ((fun node => node.skillName) ∘ (fun node =>
          if node.skillName == e.endorsedSkill then
            { node with
              rating := (node.rating * node.count + e.rating) / ((node.count : ℚ) + 1),
              count := node.count + 1 }
          else node)) n = n.skillName := by
        intro n _
        dsimp only [Function.comp]
        split <;> rfl
      rw [List.map_congr_left hfun]
      simp only [List.map_append, List.map_cons, List.map_nil]
      rw [firstAppearances_append_singleton]
      rw [hnames] at hkey
      rw [if_pos hkey]
      exact hnames
    · intro node' hmem'
      rcases List.mem_map.mp hmem' with ⟨n, hn, rfl⟩
      obtain ⟨hcnt, hlen, hsum, e0, hfind, htype⟩ := hnode n hn
      by_cases hb : (n.skillName == e.endorsedSkill) = true
      · have hbeq : n.skillName = e.endorsedSkill := beq_iff_eq.mp hb
        simp only [if_pos hb]
        have hfilt : (done ++ [e]).filter (fun x => x.endorsedSkill == n.skillName)
            = done.filter (fun x => x.endorsedSkill == n.skillName) ++ [e] := by
          rw [List.filter_append]
          simp [List.filter_cons, hbeq]
        refine ⟨Nat.succ_pos _, ?_, ?_, e0, ?_, htype⟩
        · show n.count + 1 = ((done ++ [e]).filter
            (fun x => x.endorsedSkill == n.skillName)).length
          rw [hfilt, List.length_append, ← hlen]
          rfl
        · show (n.rating * n.count + e.rating) / ((n.count : ℚ) + 1) * ((n.count + 1 : ℕ) : ℚ)
            = (((done ++ [e]).filter (fun x => x.endorsedSkill == n.skillName)).map
                (fun x => x.rating)).sum
          rw [hfilt, List.map_append, List.sum_append]
          have hne : ((n.count : ℚ) + 1) ≠ 0 := by positivity
          push_cast
          rw [div_mul_cancel₀ _ hne]
          simp only [List.map_cons, List.map_nil, List.sum_cons, List.sum_nil]
          rw [hsum]
          ring
        · show (done ++ [e]).find? (fun x => x.endorsedSkill == n.skillName) = some e0
          rw [List.find?_append, hfind]
          rfl
      · simp only [if_neg hb]
        have hne : ¬ (e.endorsedSkill == n.skillName) = true := by
          intro hcontra
          exact hb (beq_iff_eq.mpr (beq_iff_eq.mp hcontra).symm)
        have hfilt : (done ++ [e]).filter (fun x => x.endorsedSkill == n.skillName)
            = done.filter (fun x => x.endorsedSkill == n.skillName) := by
          rw [List.filter_append]
          simp [List.filter_cons, hne]
        refine ⟨hcnt, ?_, ?_, e0, ?_, htype⟩
        · rw [hfilt]; exact hlen
        · rw [hfilt]; exact hsum
        · rw [List.find?_append, hfind]; rfl
  · rw [insertEndorsement_neg acc e hmem]
    have hkey_not : e.endorsedSkill ∉ acc.map (fun node => node.skillName) := by
      intro hcontra
      apply hmem
      rcases List.mem_map.mp hcontra with ⟨n, hn, hskill⟩
      exact List.any_eq_true.mpr ⟨n, hn, beq_iff_eq.mpr hskill⟩
    have hkey_done : e.endorsedSkill ∉ done.map (fun x => x.endorsedSkill) := by
      rw [hnames] at hkey_not
      intro hcontra
      exact hkey_not ((mem_firstAppearances _ _).mpr hcontra)
    constructor
    · simp only [List.map_append, List.map_cons, List.map_nil]
      rw [hnames, firstAppearances_append_singleton]
      rw [if_neg (fun hcontra => hkey_done ((mem_firstAppearances _ _).mp hcontra))]
    · intro node hmemnode
      rcases List.mem_append.mp hmemnode with hin | hnew
      · obtain ⟨hcnt, hlen, hsum, e0, hfind, htype⟩ := hnode node hin
        have hne : ¬ (e.endorsedSkill == node.skillName) = true := by
          intro hcontra
          exact hkey_not (List.mem_map.mpr ⟨node, hin, (beq_iff_eq.mp hcontra).symm⟩)
        have hfilt : (done ++ [e]).filter (fun x => x.endorsedSkill == node.skillName)
            = done.filter (fun x => x.endorsedSkill == node.skillName) := by
          rw [List.filter_append]
          simp [List.filter_cons, hne]
        refine ⟨hcnt, ?_, ?_, e0, ?_, htype⟩
        · rw [hfilt]; exact hlen
        · rw [hfilt]; exact hsum
        · rw [List.find?_append, hfind]; rfl
      · have hnode_eq : node = ⟨e.endorsedSkill, e.endorserType, e.rating, 1⟩ := by
          simpa using hnew
        subst hnode_eq
        have hnone_filter :
            done.filter (fun x => x.endorsedSkill == e.endorsedSkill) = [] := by
          rw [List.filter_eq_nil_iff]
          intro x hx hbx
          exact hkey_done (List.mem_map.mpr ⟨x, hx, beq_iff_eq.mp hbx⟩)
        have hnone_find :
            done.find? (fun x => x.endorsedSkill == e.endorsedSkill) = none := by
          rw [List.find?_eq_none]
          intro x hx hbx
          exact hkey_done (List.mem_map.mpr ⟨x, hx, beq_iff_eq.mp hbx⟩)
        refine ⟨Nat.one_pos, ?_, ?_, e, ?_, rfl⟩
        · show (1 : ℕ) = ((done ++ [e]).filter
            (fun x => x.endorsedSkill == e.endorsedSkill)).length
          rw [List.filter_append, hnone_filter]
          simp
        · show e.rating * ((1 : ℕ) : ℚ) = (((done ++ [e]).filter
            (fun x => x.endorsedSkill == e.endorsedSkill)).map (fun x => x.rating)).sum
          rw [List.filter_append, hnone_filter]
          simp
        · show (done ++ [e]).find? (fun x => x.endorsedSkill == e.endorsedSkill) = some e
          rw [List.find?_append, hnone_find]
          simp [List.find?_cons]

theorem aggInv_nil : AggInv [] [] := by
  constructor
  · rfl
  · intro node hmem
    simp at hmem

theorem aggInv_foldl (endorsements : List EndorsementSubject) :
    ∀ (acc : List EndorsementNode) (done : List EndorsementSubject),
      AggInv acc done →
      AggInv (endorsements.foldl insertEndorsement acc) (done ++ endorsements) := by
  induction endorsements with
  | nil => intro acc done h; simpa using h
  | cons e es ih =>
      intro acc done h
      have hstep := ih (insertEndorsement acc e) (done ++ [e]) (aggInv_step acc done e h)
      simpa [List.append_assoc] using hstep

theorem aggregateEndorsements_inv (endorsements : List EndorsementSubject) :
    AggInv (aggregateEndorsements endorsements) endorsements := by
  have h := aggInv_foldl endorsements [] [] aggInv_nil
  simpa [aggregateEndorsements] using h

theorem aggregateEndorsements_pair_eval :
    aggregateEndorsements [⟨"React", "Peer", 4⟩, ⟨"React", "Mentor", 5⟩]
      = [⟨"React", "Peer", 9/2, 2⟩] := by
  simp only [aggregateEndorsements, List.foldl_cons, List.foldl_nil, insertEndorsement]
  norm_num

/-- Refutes C4 as stated: aggregating a "Peer" endorsement and then a
"Mentor" endorsement of the same skill yields an aggregate carrying
endorserType "Peer" — the FIRST endorsement processed — not "Mentor", the
last. -/
theorem endorserType_not_last_write :
    (aggregateEndorsements
        [⟨"React", "Peer", 4⟩, ⟨"React", "Mentor", 5⟩]).map
        (fun node => node.endorserType) = ["Peer"] ∧
      ("Peer" : String) ≠ "Mentor" := by
  constructor
  · rw [aggregateEndorsements_pair_eval]
    rfl
  · decide

/-- C4 amended: when several endorsements of one skill carry different
endorser types, the aggregate keeps the endorserType of the endorsement
processed FIRST for that skill (the map entry is created on first sight and
its `endorserType` is never overwritten). -/
theorem endorserType_first_write_wins (endorsements : List EndorsementSubject)
    (node : EndorsementNode) (h : node ∈ aggregateEndorsements endorsements) :
    ∃ e0, endorsements.find? (fun e => e.endorsedSkill == node.skillName) = some e0 ∧
      node.endorserType = e0.endorserType := by
  obtain ⟨-, hnode⟩ := aggregateEndorsements_inv endorsements
  exact (hnode node h).2.2.2

/-- Closed instance of `endorserType_first_write_wins`: for "Peer" then
"Mentor" endorsements of "React", the aggregate node is found and its type
is that of the first matching endorsement. -/
theorem endorserType_first_write_wins_witness :
    ((⟨"React", "Peer", 9/2, 2⟩ : EndorsementNode) ∈
        aggregateEndorsements [⟨"React", "Peer", 4⟩, ⟨"React", "Mentor", 5⟩]) ∧
      ∃ e0, ([⟨"React", "Peer", 4⟩, ⟨"React", "Mentor", 5⟩] :
            List EndorsementSubject).find?
            (fun e => e.endorsedSkill == "React") = some e0 ∧
          ("Peer" : String) = e0.endorserType := by
  have hmem : (⟨"React", "Peer", 9/2, 2⟩ : EndorsementNode) ∈
      aggregateEndorsements [⟨"React", "Peer", 4⟩, ⟨"React", "Mentor", 5⟩] := by
    rw [aggregateEndorsements_pair_eval]
    exact List.mem_singleton.mpr rfl
  exact ⟨hmem, endorserType_first_write_wins _ _ hmem⟩

/-- C6: one aggregate per distinct endorsed skill, in first-appearance
order; each aggregate's count is the number of endorsements of its skill
and its rating their arithmetic mean (reached by the incremental update);
the empty list yields the empty list, and ratings 3 and 5 of one skill
yield count 2, average 4. -/
theorem aggregateEndorsements_spec :
    (∀ endorsements : List EndorsementSubject,
        (aggregateEndorsements endorsements).map (fun node => node.skillName)
          = firstAppearances (endorsements.map (fun e => e.endorsedSkill))) ∧
      (∀ (endorsements : List EndorsementSubject) (node : EndorsementNode),
        node ∈ aggregateEndorsements endorsements →
        node.count = (endorsements.filter
            (fun e => e.endorsedSkill == node.skillName)).length ∧
          node.rating = ((endorsements.filter
              (fun e => e.endorsedSkill == node.skillName)).map
              (fun e => e.rating)).sum / node.count) ∧
      aggregateEndorsements [] = [] ∧
      aggregateEndorsements [⟨"React", "Peer", 3⟩, ⟨"React", "Peer", 5⟩]
        = [⟨"React", "Peer", 4, 2⟩] := by
  refine ⟨?_, ?_, rfl, ?_⟩
  · intro endorsements
    exact (aggregateEndorsements_inv endorsements).1
  · intro endorsements node h
    obtain ⟨hpos, hlen, hsum, -⟩ := (aggregateEndorsements_inv endorsements).2 node h
    refine ⟨hlen, ?_⟩
    have hne : ((node.count : ℚ)) ≠ 0 := by
      exact_mod_cast Nat.pos_iff_ne_zero.mp hpos
    rw [eq_div_iff hne]
    exact hsum
  · simp only [aggregateEndorsements, List.foldl_cons, List.foldl_nil, insertEndorsement]
    norm_num

theorem range_filterMap_getElem {α β : Type} (l : List α) (f : α → Option β) :
    (List.range l.length).filterMap (fun k => (l[k]?).bind f) = l.filterMap f := by
  induction l with
  | nil => simp
  | cons x xs ih =>
      have hcomp : ((fun k => ((x :: xs)[k]?).bind f) ∘ Nat.succ)
          = fun k => (xs[k]?).bind f := by
        funext k
        simp [Nat.succ_eq_add_one]
      cases hfx : f x <;>
        simp [List.range_succ_eq_map, List.filterMap_cons, List.filterMap_map,
          hfx, hcomp, ih]

theorem indexConnect_cons_succ (x : SkillNode) (xs : List SkillNode) (i j : ℕ) :
    indexConnect (x :: xs) (i + 1) (j + 1) = indexConnect xs i j := by
  simp [indexConnect]

theorem indexConnect_zero_succ (x : SkillNode) (xs : List SkillNode) (k : ℕ) :
    indexConnect (x :: xs) 0 (k + 1) = (xs[k]?).bind (connectTo x) := by
  simp only [indexConnect, List.getElem?_cons_zero, List.getElem?_cons_succ]
  cases xs[k]? <;> rfl

theorem specConnections_cons (x : SkillNode) (xs : List SkillNode) :
    specConnections (x :: xs) = xs.filterMap (connectTo x) ++ specConnections xs := by
  unfold specConnections
  rw [List.length_cons, List.range_succ_eq_map, List.flatMap_cons]
  congr 1
  · rw [List.filter_cons]
    have h0 : (decide (0 < 0)) = false := by decide
    rw [h0]
    simp only [Bool.false_eq_true, if_false, List.filter_map]
    have hall : ((fun j => decide (0 < j)) ∘ Nat.succ) = fun _ => true := by
      funext k
      simp
    rw [hall, List.filter_true, List.filterMap_map]
    have hfun : ((fun j => indexConnect (x :: xs) 0 j) ∘ Nat.succ)
        = fun k => (xs[k]?).bind (connectTo x) := by
      funext k
      exact indexConnect_zero_succ x xs k
    rw [hfun, range_filterMap_getElem]
  · rw [List.flatMap_map]
    apply List.flatMap_congr  -- check name
    intro i hi
    rw [List.filter_cons]
    have h0 : (decide (i.succ < 0)) = false := by simp
    rw [h0]
    simp only [Bool.false_eq_true, if_false, List.filter_map]
    have hsucc : ((fun j => decide (i.succ < j)) ∘ Nat.succ)
        = fun j => decide (i < j) := by
      funext k
      simp [Nat.succ_lt_succ_iff]
    rw [hsucc, List.filterMap_map]
    have hfun : ((fun j => indexConnect (x :: xs) i.succ j) ∘ Nat.succ)
        = fun j => indexConnect xs i j := by
      funext k
      exact indexConnect_cons_succ x xs i k
    rw [hfun]

theorem pairConnections_eq_spec (skills : List SkillNode) :
    pairConnections skills = specConnections skills := by
  induction skills with
  | nil => rfl
  | cons x xs ih =>
      rw [specConnections_cons, ← ih]
      rfl

/-- C8: the `connections` field holds exactly one edge per pair of
positions `i < j` of the skills list whose evidence projects overlap, with
relationship "related" and strength `min(shared/3, 1)`; when a skill's
project list is duplicate-free the shared count is the cardinality of the
set intersection.  Two skills sharing 3 projects give one edge of strength
1, sharing 1 project strength 1/3, sharing none no edge. -/
theorem skillGraph_connections_spec :
    (∀ credentials : List VerifiableCredential,
        (buildSkillGraph credentials).connections =
          specConnections (buildSkillGraph credentials).skills) ∧
      (∀ s t : SkillNode, s.evidence.projects.Nodup →
        sharedProjects s t =
          (s.evidence.projects.toFinset ∩ t.evidence.projects.toFinset).card) ∧
      (buildSkillGraph
          [.skill ⟨"Frontend", "Expert", ⟨[], 10, 100, ["p1", "p2", "p3"]⟩, ""⟩,
            .skill ⟨"Backend", "Advanced", ⟨[], 10, 100, ["p1", "p2", "p3"]⟩, ""⟩]).connections
        = [⟨"Frontend", "Backend", "related", 1⟩] ∧
      (buildSkillGraph
          [.skill ⟨"Frontend", "Expert", ⟨[], 10, 100, ["p1", "x", "y"]⟩, ""⟩,
            .skill ⟨"Backend", "Advanced", ⟨[], 10, 100, ["p1", "z", "w"]⟩, ""⟩]).connections
        = [⟨"Frontend", "Backend", "related", 1/3⟩] ∧
      (buildSkillGraph
          [.skill ⟨"Frontend", "Expert", ⟨[], 10, 100, ["p1"]⟩, ""⟩,
            .skill ⟨"Backend", "Advanced", ⟨[], 10, 100, ["q1"]⟩, ""⟩]).connections
        = [] := by
  refine ⟨?_, ?_, ?_, ?_, ?_⟩
  · intro credentials
    rw [buildSkillGraph_fields]
    exact pairConnections_eq_spec _
  · intro s t hs
    have h1 : sharedProjects s t = (s.evidence.projects ∩ t.evidence.projects).length := rfl
    rw [h1, ← List.toFinset_card_of_nodup (hs.inter _), List.toFinset_inter]
  · rw [buildSkillGraph_fields]
    simp only [List.filterMap_cons, List.filterMap_nil, skillNodeOf]
    simp only [pairConnections, List.filterMap_cons, List.filterMap_nil, connectTo,
      sharedProjects]
    simp [List.filter_cons, List.filter_nil]
  · rw [buildSkillGraph_fields]
    simp only [List.filterMap_cons, List.filterMap_nil, skillNodeOf]
    simp only [pairConnections, List.filterMap_cons, List.filterMap_nil, connectTo,
      sharedProjects]
    simp [List.filter_cons, List.filter_nil]
    norm_num [min_def]
  · rw [buildSkillGraph_fields]
    simp only [List.filterMap_cons, List.filterMap_nil, skillNodeOf]
    simp only [pairConnections, List.filterMap_cons, List.filterMap_nil, connectTo,
      sharedProjects]
    simp [List.filter_cons, List.filter_nil]
